import Mathlib

/-!
Shallow embedding of the StegDB multi-repo governance tooling:

* `ValidateCosden` — `canonical/cosden/tools/validate_cosden_structure.py`
  (mode lattice and validation-stamp update);
* `EvalDeps` — `tools/evaluate_dependencies.py`
  (repo nodes, cycle detection, status assembly, `main`);
* `GenMeta` — `tools/generate_repo_metadata.py`
  (file iteration and metadata generation);
* `RepairRepos` — `tools/repair_repos.py`
  (repair-plan construction and emission).

File-system effects are made explicit: a directory listing becomes a list of
entries in traversal order, a file read that may raise becomes an `Option`,
and the documents a script writes become return values.
-/

namespace ValidateCosden

/-- A validation stamp as written by `update_validation_stamp`:
`{repo, commit, highest_mode, meta_sha256, validated_at}`. -/
structure Stamp where
  repo : String
  commit : String
  highest_mode : String
  meta_sha256 : String
  validated_at : String
deriving DecidableEq, Repr

/-- Table lookup `MODE_LEVEL.get(mode, 0)`: the table `{"build": 1, "prod": 2}` with
default `0` for any other key. -/
def modeLevel (mode : String) : Nat :=
  if mode = "build" then 1 else if mode = "prod" then 2 else 0

/-- Embedding of `update_validation_stamp(mode, meta_hash)` with its environment made
explicit: `commit` is the `GITHUB_SHA` value (or `"unknown"`), `now` the
current timestamp, and `current` the parse of the existing stamp file
(`none` when the file is absent or unreadable).  Returns the stamp that is
written to `meta/validation_stamp.json`. -/
def update_validation_stamp (mode meta_hash commit now : String)
    (current : Option Stamp) : Stamp :=
  let new_level := modeLevel mode
  let highest_mode :=
    match current with
    | some cur =>
        if cur.commit = commit then
          let old_mode := cur.highest_mode
          let old_level := modeLevel old_mode
          if new_level ≥ old_level then mode else old_mode
        else mode
    | none => mode
  { repo := "CosDen", commit := commit, highest_mode := highest_mode,
    meta_sha256 := meta_hash, validated_at := now }

/-- The lattice maximum on modes taken from the spec's order `build < prod`. -/
def latticeMax (m1 m2 : String) : String :=
  if m1 = "prod" ∨ m2 = "prod" then "prod" else "build"

end ValidateCosden

/-- Lexicographic (code-point) order on character lists, as used by Python's
`sorted` on strings. -/
def charsLt : List Char → List Char → Bool
  | [], [] => false
  | [], _ :: _ => true
  | _ :: _, [] => false
  | a :: as, b :: bs =>
      if a.toNat < b.toNat then true
      else if b.toNat < a.toNat then false
      else charsLt as bs

/-- Strict lexicographic order on strings. -/
def strLt (a b : String) : Bool := charsLt a.data b.data

/-- Non-strict lexicographic order on strings. -/
def strLe (a b : String) : Bool := a = b || strLt a b

/-- Insert a string into a list that is kept sorted by `strLe`. -/
def insertStr (x : String) : List String → List String
  | [] => [x]
  | y :: ys => if strLe x y then x :: y :: ys else y :: insertStr x ys

/-- Sort a list of strings lexicographically (Python's `sorted`). -/
def sortStrs (l : List String) : List String := l.foldr insertStr []

/-- Deduplicate keeping the first occurrence of each element (the order a
Python `dict`/insertion-ordered set presents its keys in). -/
def pyDedup (l : List String) : List String :=
  l.foldl (fun acc x => if x ∈ acc then acc else acc ++ [x]) []

namespace EvalDeps

/-- Structure `RepoNode` from `tools/evaluate_dependencies.py`. -/
structure RepoNode where
  name : String
  path : String
  depends_on : List String
  files : List String
deriving DecidableEq, Repr

/-- One entry of `repos_config.json`'s `repos` list, after the `.get`
defaults of `_build_repo_nodes` (`path` defaults to `""`, `depends_on` to
`[]`) are resolved. -/
structure RepoDef where
  name : String
  path : String
  depends_on : List String
deriving DecidableEq, Repr

/-- The fields of one `aggregated_files.jsonl` record that
`_build_repo_nodes` consults; an absent or falsy field is modelled as `""`. -/
structure AggRecord where
  repo : String
  path : String
deriving DecidableEq, Repr

/-- Embedding of `files_by_repo.setdefault(repo, []).append(path)`. -/
def addFile (m : List (String × List String)) (repo path : String) :
    List (String × List String) :=
  match m with
  | [] => [(repo, [path])]
  | (r, ps) :: rest =>
      if r = repo then (r, ps ++ [path]) :: rest
      else (r, ps) :: addFile rest repo path

/-- The `files_by_repo` index built by `_build_repo_nodes`: aggregated
records grouped by repo name, skipping records with a falsy repo or path. -/
def filesByRepo (aggregated : List AggRecord) : List (String × List String) :=
  aggregated.foldl
    (fun m r => if r.repo = "" ∨ r.path = "" then m else addFile m r.repo r.path) []

/-- Assignment `nodes[name] = node` on an insertion-ordered dict of `RepoNode`s. -/
def dictSetNode (m : List RepoNode) (nd : RepoNode) : List RepoNode :=
  match m with
  | [] => [nd]
  | x :: rest => if x.name = nd.name then nd :: rest else x :: dictSetNode rest nd

/-- Embedding of `_build_repo_nodes`: join the declared repos with the files known from
aggregated metadata. -/
def build_repo_nodes (repo_defs : List RepoDef) (aggregated : List AggRecord) :
    List RepoNode :=
  let files_by_repo := filesByRepo aggregated
  repo_defs.foldl
    (fun nodes r =>
      dictSetNode nodes
        ⟨r.name, r.path, r.depends_on, (files_by_repo.lookup r.name).getD []⟩)
    []

/-- The mutable state of `_detect_cycles`'s `dfs`.  Python keeps `visited`
as a set used only for membership tests; recording it as the list of nodes
in entry order is equivalent and lets us state that no node is entered
twice. -/
structure DfsState where
  visited : List String
  stack : List String
  cycles : List (List String)
deriving DecidableEq, Repr

/-- The adjacency dict `{name: node.depends_on}` of `_detect_cycles`. -/
def graphOf (nodes : List RepoNode) : List (String × List String) :=
  nodes.map fun nd => (nd.name, nd.depends_on)

/-- The inner `dfs(node, path)` of `_detect_cycles`; the loop
`for dep in graph.get(node, []): dfs(dep, path + [dep])` is the fold.
`fuel` bounds the recursion depth; `_detect_cycles` supplies one unit more
than the node count, which is enough for the traversal to run to
completion, because every nesting level except the last enters a
previously unvisited node. -/
def dfs (g : List (String × List String)) :
    Nat → String → List String → DfsState → DfsState
  | 0, _, _, st => st
  | Nat.succ fuel, node, path, st =>
      if node ∈ st.stack then
        let idx := if node ∈ path then path.indexOf node else 0
        { st with cycles := st.cycles ++ [path.drop idx ++ [node]] }
      else if node ∈ st.visited then st
      else
        let st1 : DfsState :=
          { st with visited := st.visited ++ [node], stack := st.stack ++ [node] }
        let st2 := ((g.lookup node).getD []).foldl
          (fun s dep => dfs g fuel dep (path ++ [dep]) s) st1
        { st2 with stack := st2.stack.erase node }

/-- Embedding of `_detect_cycles`: run `dfs(n, [n])` from every not-yet-visited node, in
declaration order. -/
def detect_cycles (nodes : List RepoNode) : DfsState :=
  let graph := graphOf nodes
  let fuel := graph.length + 1
  graph.foldl
    (fun st p => if p.1 ∈ st.visited then st else dfs graph fuel p.1 [p.1] st)
    ⟨[], [], []⟩

/-- Return value of `_detect_cycles`: the accumulated cycle list. -/
def detect_cycles_list (nodes : List RepoNode) : List (List String) :=
  (detect_cycles nodes).cycles

end EvalDeps

/-- A JSON value, rich enough to mirror the documents the scripts build as
Python dicts (insertion-ordered key/value lists). -/
inductive JVal where
  | s : String → JVal
  | n : Nat → JVal
  | arr : List JVal → JVal
  | obj : List (String × JVal) → JVal

/-- The keys of a JSON object, in insertion order. -/
def JVal.keys : JVal → Option (List String)
  | .obj o => some (o.map Prod.fst)
  | _ => none

/-- Look up a key of a JSON object. -/
def JVal.field : JVal → String → Option JVal
  | .obj o, k => o.lookup k
  | _, _ => none

namespace EvalDeps

/-- Embedding of `_compute_status`: assemble the status document from the repo nodes and
the detected cycles.  Python materializes `list(declared_repos)` and the
set differences from hash sets; the differences are `sorted` and thus
order-faithful, while the `graph.nodes` list is modelled in first-insertion
order. -/
def compute_status (nodes : List RepoNode) (cycles : List (List String)) : JVal :=
  let declared := pyDedup (nodes.map (·.name))
  let all_deps := pyDedup (nodes.flatMap (·.depends_on))
  JVal.obj
    [("summary", JVal.obj
        [("total_repos", JVal.n declared.length),
         ("missing_repos",
            JVal.arr ((sortStrs (all_deps.filter (· ∉ declared))).map JVal.s)),
         ("unused_repos",
            JVal.arr ((sortStrs (declared.filter (· ∉ all_deps))).map JVal.s)),
         ("cycles", JVal.arr (cycles.map fun c => JVal.arr (c.map JVal.s)))]),
     ("repos", JVal.obj (nodes.map fun nd =>
        (nd.name, JVal.obj
          [("path", JVal.s nd.path),
           ("depends_on", JVal.arr (nd.depends_on.map JVal.s)),
           ("file_count", JVal.n nd.files.length)]))),
     ("graph", JVal.obj
        [("nodes", JVal.arr (declared.map JVal.s)),
         ("edges", JVal.arr (nodes.flatMap fun nd => nd.depends_on.map fun d =>
            JVal.obj [("from", JVal.s nd.name), ("to", JVal.s d)]))])]

/-- What a run of `evaluate_dependencies.main` produces: its exit code and
the two documents it may write. -/
structure MainOutput where
  exitCode : Nat
  statusDoc : Option JVal
  graphDoc : Option JVal

/-- The minimal status document written when `repos_config.json` is absent. -/
def noConfigStatus : JVal :=
  JVal.obj
    [("summary", JVal.obj
        [("status", JVal.s "no_config"),
         ("message",
            JVal.s "repos_config.json missing; dependency health not evaluated.")])]

/-- The `dependency_graph.json` document `main` writes on the config-present
path. -/
def graphDocOf (nodes : List RepoNode) (cycles : List (List String)) : JVal :=
  JVal.obj
    [("nodes", JVal.arr (nodes.map fun nd => JVal.obj
        [("name", JVal.s nd.name),
         ("path", JVal.s nd.path),
         ("depends_on", JVal.arr (nd.depends_on.map JVal.s)),
         ("files", JVal.arr (nd.files.map JVal.s))])),
     ("cycles", JVal.arr (cycles.map fun c => JVal.arr (c.map JVal.s)))]

/-- Embedding of `main`, with its file-system environment made explicit: `config` is the
parse of `repos_config.json` (`none` when the file is absent from every
candidate location) and `aggregated` the records of
`aggregated_files.jsonl`.  Returns the exit code and the documents written. -/
def main (config : Option (List RepoDef)) (aggregated : List AggRecord) :
    MainOutput :=
  match config with
  | none => ⟨0, some noConfigStatus, none⟩
  | some repo_defs =>
      let nodes := build_repo_nodes repo_defs aggregated
      let cycles := detect_cycles_list nodes
      ⟨0, some (compute_status nodes cycles), some (graphDocOf nodes cycles)⟩

end EvalDeps

namespace GenMeta

/-- A regular file as seen by `generate_repo_metadata.py`: its relative
posix path, its size, and the outcome of `sha256_file` on it — `some h`
when streaming the file succeeds with digest `h`, `none` when the read
raises (unreadable file). -/
structure FsFile where
  path : String
  size_bytes : Nat
  sha256 : Option String
deriving DecidableEq, Repr

/-- One line of `meta/files.jsonl` as written by `generate_metadata`. -/
structure FileRecord where
  repo : String
  path : String
  sha256 : String
  size_bytes : Nat
  timestamp : String
  valid_location : Bool
  issues : List String
deriving DecidableEq, Repr

/-- Embedding of `iter_files`: concatenate, in the configured order of `include_dirs`,
the files found under each present directory, in the traversal order the
file system yields them (`rglob` makes no ordering promise); an absent
directory (`none`) is skipped. -/
def iter_files (dirs : List (Option (List FsFile))) : List FsFile :=
  dirs.foldr (fun d acc => d.getD [] ++ acc) []

/-- The write loop of `generate_metadata`: one record per file in iteration
order.  An unreadable file makes `sha256_file` raise, which propagates out
of the loop: the records already written stay in the file and no further
file is processed.  Returns the records written and the path of the file
whose read raised, if any. -/
def scanFiles (repo_name now : String) :
    List FsFile → List FileRecord × Option String
  | [] => ([], none)
  | f :: rest =>
      match f.sha256 with
      | none => ([], some f.path)
      | some h =>
          let r := scanFiles repo_name now rest
          (⟨repo_name, f.path, h, f.size_bytes, now, true, []⟩ :: r.1, r.2)

/-- Embedding of `generate_metadata`: scan the allow-listed directories and write
`meta/files.jsonl`. -/
def generate_metadata (repo_name now : String)
    (dirs : List (Option (List FsFile))) : List FileRecord × Option String :=
  scanFiles repo_name now (iter_files dirs)

end GenMeta

namespace RepairRepos

/-- Structure `FileRecord` from `tools/repair_repos.py` (the `raw` field, the whole
parsed JSON object, is never consulted by the planner and is omitted). -/
structure FileRecord where
  repo : String
  path : String
  sha256 : String
  valid_location : Bool
deriving DecidableEq, Repr

/-- One element of a repair plan's `actions` list.  `repo_sha256` is only
present in the `hash_mismatch` case. -/
structure RepairAction where
  type : String
  target_path : String
  canonical_relpath : String
  reason : String
  repo_sha256 : Option String
  canonical_sha256 : String
deriving DecidableEq, Repr

/-- The repair-plan document. -/
structure RepairPlan where
  repo : String
  generated_at : String
  canonical_root : String
  actions : List RepairAction
deriving DecidableEq, Repr

/-- The body of `build_cosden_repair_plan`'s comparison loop for one
canonical file `(p, h)`: an action when the file is absent from the repo
index or present with a different hash, nothing when the hashes match. -/
def diffAction (repo_entries : List (String × FileRecord)) (p h : String) :
    Option RepairAction :=
  match repo_entries.lookup p with
  | none => some ⟨"write_file", p, p, "missing_in_repo", none, h⟩
  | some r =>
      if r.sha256 ≠ h then some ⟨"write_file", p, p, "hash_mismatch", some r.sha256, h⟩
      else none

/-- The `actions` list accumulated by `build_cosden_repair_plan`:
`canonical` lists the files under `canonical/cosden/` as `(relative path,
sha256)` in traversal order, `repo_entries` is the repo's entry of the
aggregated index (a dict, so its keys are unique). -/
def build_actions (canonical : List (String × String))
    (repo_entries : List (String × FileRecord)) : List RepairAction :=
  canonical.filterMap fun c => diffAction repo_entries c.1 c.2

/-- Embedding of `build_cosden_repair_plan`: `canonical_root` is `none` when
`canonical/cosden/` does not exist (the function returns `{}`); an empty
action list also yields `{}`, modelled as `none`. -/
def build_cosden_repair_plan (canonical_root : Option (List (String × String)))
    (repo_entries : List (String × FileRecord)) (now : String) :
    Option RepairPlan :=
  match canonical_root with
  | none => none
  | some canonical =>
      let actions := build_actions canonical repo_entries
      if actions.isEmpty then none
      else some ⟨"CosDen", now, "canonical/cosden", actions⟩

/-- Embedding of `write_repair_plan`: returns the document written to
`repairs/CosDen/repair_plan.json`, or `none` when the plan is falsy and
nothing is written. -/
def write_repair_plan (plan : Option RepairPlan) : Option RepairPlan :=
  match plan with
  | none => none
  | some p => some p

/-- Assignment `index[path] = record` on an insertion-ordered dict. -/
def dictSet (m : List (String × FileRecord)) (k : String) (v : FileRecord) :
    List (String × FileRecord) :=
  match m with
  | [] => [(k, v)]
  | (k0, v0) :: rest =>
      if k0 = k then (k, v) :: rest else (k0, v0) :: dictSet rest k v

/-- Apply a repair plan to the index, as the spec's idempotence property
simulates it: each listed target path ends up carrying its canonical hash. -/
def apply_plan (actions : List RepairAction)
    (repo_entries : List (String × FileRecord)) : List (String × FileRecord) :=
  actions.foldl
    (fun e a =>
      dictSet e a.target_path ⟨"CosDen", a.target_path, a.canonical_sha256, true⟩)
    repo_entries

end RepairRepos

/-! Theorems.  Each claim `Cn` of the specification gets one theorem (with
a witness or counterexample where required); shared helper lemmas come
first. -/

/-- C3: merging validation stamps for the same commit yields the lattice
maximum of the two modes under `build < prod` (a build validation after a
prod one keeps `prod`), with the timestamp and content-index hash of the
incoming pass; for differing commits the result is the incoming stamp
unchanged. -/
theorem C3_stamp_merge (m1 m2 h1 h c c0 t1 t r : String)
    (hm1 : m1 = "build" ∨ m1 = "prod") (hm2 : m2 = "build" ∨ m2 = "prod") :
    (ValidateCosden.update_validation_stamp m2 h c t
        (some ⟨r, c, m1, h1, t1⟩)).highest_mode = ValidateCosden.latticeMax m1 m2
    ∧ (ValidateCosden.update_validation_stamp m2 h c t
        (some ⟨r, c, m1, h1, t1⟩)).meta_sha256 = h
    ∧ (ValidateCosden.update_validation_stamp m2 h c t
        (some ⟨r, c, m1, h1, t1⟩)).validated_at = t
    ∧ (c0 ≠ c → ValidateCosden.update_validation_stamp m2 h c t
        (some ⟨r, c0, m1, h1, t1⟩) = ⟨"CosDen", c, m2, h, t⟩) := by
  refine ⟨?_, rfl, rfl, ?_⟩
  · rcases hm1 with rfl | rfl <;> rcases hm2 with rfl | rfl <;>
      simp [ValidateCosden.update_validation_stamp, ValidateCosden.modeLevel,
        ValidateCosden.latticeMax]
  · intro hne
    simp [ValidateCosden.update_validation_stamp, hne]

/-- Witness for C3 at a concrete input: a build validation arriving after a
prod one on the same commit keeps `prod` and takes the new hash and
timestamp. -/
theorem C3_stamp_merge_witness :
    (ValidateCosden.update_validation_stamp "build" "H" "C" "T"
        (some ⟨"CosDen", "C", "prod", "H0", "T0"⟩)).highest_mode =
      ValidateCosden.latticeMax "prod" "build"
    ∧ (ValidateCosden.update_validation_stamp "build" "H" "C" "T"
        (some ⟨"CosDen", "C", "prod", "H0", "T0"⟩)).meta_sha256 = "H"
    ∧ (ValidateCosden.update_validation_stamp "build" "H" "C" "T"
        (some ⟨"CosDen", "C", "prod", "H0", "T0"⟩)).validated_at = "T"
    ∧ ("C0" ≠ "C" → ValidateCosden.update_validation_stamp "build" "H" "C" "T"
        (some ⟨"CosDen", "C0", "prod", "H0", "T0"⟩) = ⟨"CosDen", "C", "build", "H", "T"⟩) :=
  C3_stamp_merge "prod" "build" "H0" "H" "C" "C0" "T0" "T" "CosDen"
    (Or.inr rfl) (Or.inl rfl)

/-- C4 counterexample: calling the stamp update with the unrecognized mode
`"bogus"` and no existing stamp silently assigns it level `0` and writes a
stamp whose `highest_mode` is the unrecognized mode — it is neither
rejected as a fatal input error nor kept out of the written stamp. -/
theorem C4_counterexample :
    ValidateCosden.update_validation_stamp "bogus" "H" "C" "T" none =
      ⟨"CosDen", "C", "bogus", "H", "T"⟩
    ∧ ValidateCosden.modeLevel "bogus" = 0 := ⟨rfl, rfl⟩

/-- C4 amended: an unrecognized mode is not a fatal input error — it is
silently coerced to level `0` by `MODE_LEVEL.get(mode, 0)`; with no
existing stamp (or a stamp for another commit) the written stamp carries
the unrecognized mode as `highest_mode`, while against an existing
same-commit stamp with a recognized mode the existing mode wins.  Only the
command-line parser's `choices=["build", "prod"]` keeps unknown modes out
of `update_validation_stamp` in normal runs. -/
theorem C4_unknown_mode_amended (mode h1 h c t t1 : String)
    (hb : mode ≠ "build") (hp : mode ≠ "prod") :
    ValidateCosden.modeLevel mode = 0
    ∧ (ValidateCosden.update_validation_stamp mode h c t none).highest_mode = mode
    ∧ ∀ m0, m0 = "build" ∨ m0 = "prod" →
        (ValidateCosden.update_validation_stamp mode h c t
          (some ⟨"CosDen", c, m0, h1, t1⟩)).highest_mode = m0 := by
  refine ⟨?_, rfl, ?_⟩
  · simp [ValidateCosden.modeLevel, hb, hp]
  · intro m0 hm0
    rcases hm0 with rfl | rfl <;>
      simp [ValidateCosden.update_validation_stamp, ValidateCosden.modeLevel, hb, hp]

/-- Witness for C4's amended statement at the concrete mode `"bogus"`. -/
theorem C4_unknown_mode_amended_witness :
    ValidateCosden.modeLevel "bogus" = 0
    ∧ (ValidateCosden.update_validation_stamp "bogus" "H" "C" "T" none).highest_mode =
        "bogus"
    ∧ ∀ m0, m0 = "build" ∨ m0 = "prod" →
        (ValidateCosden.update_validation_stamp "bogus" "H" "C" "T"
          (some ⟨"CosDen", "C", m0, "H1", "T1"⟩)).highest_mode = m0 :=
  C4_unknown_mode_amended "bogus" "H1" "H" "C" "T" "T1"
    (by decide) (by decide)

/-- C2 counterexample: with `repos_config.json` absent, `main` exits with
status `0` (success) and still writes a status document — the run is not
fatal and does not halt before producing output. -/
theorem C2_counterexample :
    (EvalDeps.main none []).exitCode = 0
    ∧ (EvalDeps.main none []).statusDoc = some EvalDeps.noConfigStatus
    ∧ (EvalDeps.main none []).statusDoc ≠ none :=
  ⟨rfl, rfl, by simp [EvalDeps.main]⟩

/-- C2 amended: a missing repos configuration is deliberately non-fatal —
`main` skips dependency evaluation, writes a minimal status document whose
summary status is `"no_config"`, writes no graph document, and returns
exit code `0`. -/
theorem C2_no_config_amended (aggregated : List EvalDeps.AggRecord) :
    EvalDeps.main none aggregated = ⟨0, some EvalDeps.noConfigStatus, none⟩
    ∧ ((EvalDeps.noConfigStatus.field "summary").bind (fun s0 => s0.field "status")) =
        some (JVal.s "no_config") :=
  ⟨rfl, rfl⟩

/-- Characterization of the metadata write loop: it emits one record per
file of the longest readable prefix of the iteration order, and reports the
first unreadable file (if any) as the propagated error. -/
theorem scanFiles_spec (r t : String) (fs : List GenMeta.FsFile) :
    (GenMeta.scanFiles r t fs).1 =
      (fs.takeWhile (fun f => f.sha256.isSome)).map
        (fun f => ⟨r, f.path, f.sha256.getD "", f.size_bytes, t, true, []⟩)
    ∧ (GenMeta.scanFiles r t fs).2 =
      ((fs.dropWhile (fun f => f.sha256.isSome)).head?).map (fun f => f.path) := by
  induction fs with
  | nil => exact ⟨rfl, rfl⟩
  | cons f rest ih =>
      rcases hf : f.sha256 with _ | h <;>
        simp [GenMeta.scanFiles, hf, ih.1, ih.2]

/-- C9 counterexample: with the second of three files unreadable, the scan
stops there — it records only the file before it, emits nothing for the
readable file after it, and propagates the error instead of recording it
against the single bad file. -/
theorem C9_counterexample :
    (GenMeta.generate_metadata "CosDen" "T"
        [some [⟨"src/a.py", 1, some "HA"⟩, ⟨"src/b.py", 2, none⟩,
               ⟨"src/c.py", 3, some "HC"⟩]]).1.map (fun fr => fr.path) = ["src/a.py"]
    ∧ (GenMeta.generate_metadata "CosDen" "T"
        [some [⟨"src/a.py", 1, some "HA"⟩, ⟨"src/b.py", 2, none⟩,
               ⟨"src/c.py", 3, some "HC"⟩]]).2 = some "src/b.py" := ⟨rfl, rfl⟩

/-- C9 amended: an unreadable file aborts the scan at that file — records
are emitted exactly for the files preceding the first unreadable one in
iteration order, and the read error propagates out of the scan instead of
being recorded against the single file. -/
theorem C9_unreadable_amended (repo now : String)
    (dirs : List (Option (List GenMeta.FsFile))) :
    (GenMeta.generate_metadata repo now dirs).1 =
      ((GenMeta.iter_files dirs).takeWhile (fun f => f.sha256.isSome)).map
        (fun f => ⟨repo, f.path, f.sha256.getD "", f.size_bytes, now, true, []⟩)
    ∧ (GenMeta.generate_metadata repo now dirs).2 =
      (((GenMeta.iter_files dirs).dropWhile (fun f => f.sha256.isSome)).head?).map
        (fun f => f.path) :=
  scanFiles_spec repo now (GenMeta.iter_files dirs)

/-- C5 counterexample: a traversal that yields `src/b.py` before `src/a.py`
is emitted in exactly that order — the final FileRecord sequence is not
sorted by path, so serialization is only stable if the traversal order is. -/
theorem C5_counterexample :
    (GenMeta.generate_metadata "CosDen" "T"
        [some [⟨"src/b.py", 1, some "HB"⟩, ⟨"src/a.py", 2, some "HA"⟩]]).1.map
        (fun fr => fr.path) = ["src/b.py", "src/a.py"]
    ∧ strLe "src/b.py" "src/a.py" = false := ⟨rfl, by decide⟩

/-- C5 amended: the emitted FileRecord sequence preserves the traversal
order — the allow-listed directories in their configured order and, within
each, the order the file system yields — with no sorting applied before
serialization. -/
theorem C5_traversal_order_amended (repo now : String)
    (dirs : List (Option (List GenMeta.FsFile)))
    (hread : ∀ f ∈ GenMeta.iter_files dirs, f.sha256.isSome = true) :
    (GenMeta.generate_metadata repo now dirs).1.map (fun fr => fr.path) =
      (GenMeta.iter_files dirs).map (fun f => f.path) := by
  have h1 := (scanFiles_spec repo now (GenMeta.iter_files dirs)).1
  have htw : (GenMeta.iter_files dirs).takeWhile (fun f => f.sha256.isSome) =
      GenMeta.iter_files dirs := List.takeWhile_eq_self_iff.mpr hread
  unfold GenMeta.generate_metadata
  rw [h1, htw, List.map_map]
  rfl

/-- Witness for C5's amended statement on a concrete two-file traversal. -/
theorem C5_traversal_order_amended_witness :
    (∀ f ∈ GenMeta.iter_files
        [some [⟨"src/b.py", 1, some "HB"⟩, ⟨"src/a.py", 2, some "HA"⟩]],
      f.sha256.isSome = true)
    ∧ (GenMeta.generate_metadata "CosDen" "T"
        [some [⟨"src/b.py", 1, some "HB"⟩, ⟨"src/a.py", 2, some "HA"⟩]]).1.map
          (fun fr => fr.path) =
      (GenMeta.iter_files
        [some [⟨"src/b.py", 1, some "HB"⟩, ⟨"src/a.py", 2, some "HA"⟩]]).map
          (fun f => f.path) :=
  ⟨by decide, C5_traversal_order_amended "CosDen" "T"
    [some [⟨"src/b.py", 1, some "HB"⟩, ⟨"src/a.py", 2, some "HA"⟩]] (by decide)⟩

/-- Looking a key up in an association list built by mapping a key function
over a duplicate-free list finds the image of the matching element. -/
theorem lookup_map_of_nodup {α β : Type} (key : α → String) (f : α → β) :
    ∀ (l : List α) (a : α), a ∈ l → (l.map key).Nodup →
      List.lookup (key a) (l.map fun x => (key x, f x)) = some (f a) := by
  intro l
  induction l with
  | nil => intro a ha _; exact absurd ha (List.not_mem_nil a)
  | cons x rest ih =>
      intro a ha hnd
      have hnd' : (key x ∉ rest.map key) ∧ (rest.map key).Nodup :=
        List.nodup_cons.mp (by simpa using hnd)
      rcases List.mem_cons.mp ha with rfl | hmem
      · simp [List.lookup]
      · have hne : key a ≠ key x := fun he =>
          hnd'.1 (he ▸ List.mem_map_of_mem key hmem)
        have hbeq : (key a == key x) = false := beq_eq_false_iff_ne.mpr hne
        simp [List.lookup, hbeq, ih a hmem hnd'.2]

/-- C1 counterexample: for the configuration with one repo `A` depending on
the unconfigured repo `B`, the evaluated status assigns `A` exactly the
keys `path`, `depends_on` and `file_count` — no `deps_ok` value exists
anywhere in the per-repo status (the claimed `deps_ok = false` for the
missing dependency is never assigned); `B` surfaces only in the summary's
`missing_repos` list. -/
theorem C1_counterexample :
    (((EvalDeps.compute_status [⟨"A", "repos/A", ["B"], []⟩]
          (EvalDeps.detect_cycles_list [⟨"A", "repos/A", ["B"], []⟩])).field
        "repos").bind (fun r => r.field "A")).bind JVal.keys =
      some ["path", "depends_on", "file_count"]
    ∧ "deps_ok" ∉ ["path", "depends_on", "file_count"]
    ∧ ((EvalDeps.compute_status [⟨"A", "repos/A", ["B"], []⟩]
          (EvalDeps.detect_cycles_list [⟨"A", "repos/A", ["B"], []⟩])).field
        "summary").bind (fun s0 => s0.field "missing_repos") =
      some (JVal.arr [JVal.s "B"]) :=
  ⟨rfl, by decide, rfl⟩

/-- C1 amended: the dependency evaluation assigns each configured repo a
record containing exactly `path`, `depends_on` and `file_count` — it
computes no per-repo `deps_ok` and performs no fixed-point evaluation;
cycles are passed through unchanged at the summary level (and unconfigured
dependencies appear only in the summary's `missing_repos`). -/
theorem C1_no_deps_ok_amended (nodes : List EvalDeps.RepoNode)
    (cycles : List (List String)) (nd : EvalDeps.RepoNode)
    (hmem : nd ∈ nodes) (hnd : (nodes.map EvalDeps.RepoNode.name).Nodup) :
    ((EvalDeps.compute_status nodes cycles).field "repos").bind
        (fun r => r.field nd.name) =
      some (JVal.obj [("path", JVal.s nd.path),
        ("depends_on", JVal.arr (nd.depends_on.map JVal.s)),
        ("file_count", JVal.n nd.files.length)])
    ∧ (((EvalDeps.compute_status nodes cycles).field "repos").bind
        (fun r => r.field nd.name)).bind JVal.keys =
      some ["path", "depends_on", "file_count"]
    ∧ ((EvalDeps.compute_status nodes cycles).field "summary").bind
        (fun s0 => s0.field "cycles") =
      some (JVal.arr (cycles.map fun c => JVal.arr (c.map JVal.s))) := by
  have h1 : ((EvalDeps.compute_status nodes cycles).field "repos").bind
      (fun r => r.field nd.name) =
      some (JVal.obj [("path", JVal.s nd.path),
        ("depends_on", JVal.arr (nd.depends_on.map JVal.s)),
        ("file_count", JVal.n nd.files.length)]) :=
    lookup_map_of_nodup EvalDeps.RepoNode.name
      (fun nd0 => JVal.obj [("path", JVal.s nd0.path),
        ("depends_on", JVal.arr (nd0.depends_on.map JVal.s)),
        ("file_count", JVal.n nd0.files.length)]) nodes nd hmem hnd
  exact ⟨h1, by rw [h1]; rfl, rfl⟩

/-- Witness for C1's amended statement on a one-repo configuration. -/
theorem C1_no_deps_ok_amended_witness :
    (((EvalDeps.compute_status [⟨"A", "repos/A", ["B"], []⟩] []).field
        "repos").bind (fun r => r.field "A") =
      some (JVal.obj [("path", JVal.s "repos/A"),
        ("depends_on", JVal.arr (["B"].map JVal.s)),
        ("file_count", JVal.n ([] : List String).length)]))
    ∧ ((((EvalDeps.compute_status [⟨"A", "repos/A", ["B"], []⟩] []).field
        "repos").bind (fun r => r.field "A")).bind JVal.keys =
      some ["path", "depends_on", "file_count"])
    ∧ (((EvalDeps.compute_status [⟨"A", "repos/A", ["B"], []⟩] []).field
        "summary").bind (fun s0 => s0.field "cycles") =
      some (JVal.arr (([] : List (List String)).map fun c =>
        JVal.arr (c.map JVal.s)))) :=
  C1_no_deps_ok_amended [⟨"A", "repos/A", ["B"], []⟩] [] ⟨"A", "repos/A", ["B"], []⟩
    (by simp) (by simp)

/-- What an emitted repair action says about its inputs. -/
theorem diffAction_some (entries : List (String × RepairRepos.FileRecord))
    (p h : String) (a : RepairRepos.RepairAction)
    (hda : RepairRepos.diffAction entries p h = some a) :
    a.type = "write_file" ∧ a.target_path = p ∧ a.canonical_sha256 = h
    ∧ ((a.reason = "missing_in_repo" ∧ entries.lookup p = none)
      ∨ (a.reason = "hash_mismatch"
          ∧ ∃ r, entries.lookup p = some r ∧ r.sha256 ≠ h)) := by
  unfold RepairRepos.diffAction at hda
  split at hda
  · rename_i heq
    cases hda
    exact ⟨rfl, rfl, rfl, Or.inl ⟨rfl, heq⟩⟩
  · rename_i r heq
    split at hda
    · rename_i hne
      cases hda
      exact ⟨rfl, rfl, rfl, Or.inr ⟨rfl, r, heq, hne⟩⟩
    · cases hda

/-- A canonical file whose index entry carries the canonical hash produces
no action. -/
theorem diffAction_none (entries : List (String × RepairRepos.FileRecord))
    (p h : String) (hda : RepairRepos.diffAction entries p h = none) :
    ∃ r, entries.lookup p = some r ∧ r.sha256 = h := by
  unfold RepairRepos.diffAction at hda
  split at hda
  · cases hda
  · rename_i r heq
    split at hda
    · cases hda
    · rename_i hne
      exact ⟨r, heq, not_not.mp hne⟩

/-- The action targets are exactly the drifting canonical paths, in
canonical traversal order. -/
theorem build_actions_targets (entries : List (String × RepairRepos.FileRecord)) :
    ∀ canonical : List (String × String),
      (RepairRepos.build_actions canonical entries).map (fun a => a.target_path) =
        (canonical.filter fun c =>
          (RepairRepos.diffAction entries c.1 c.2).isSome).map Prod.fst := by
  intro canonical
  induction canonical with
  | nil => rfl
  | cons c rest ih =>
      rcases hdc : RepairRepos.diffAction entries c.1 c.2 with _ | a
      · simpa [RepairRepos.build_actions, List.filterMap_cons, hdc] using ih
      · have hta := (diffAction_some entries c.1 c.2 a hdc).2.1
        simpa [RepairRepos.build_actions, List.filterMap_cons, hdc, hta] using ih

/-- Every emitted action targets a canonical file. -/
theorem build_actions_target_mem (entries : List (String × RepairRepos.FileRecord))
    (canonical : List (String × String)) (a : RepairRepos.RepairAction)
    (ha : a ∈ RepairRepos.build_actions canonical entries) :
    a.target_path ∈ canonical.map Prod.fst := by
  rcases List.mem_filterMap.mp ha with ⟨c, hc, hdc⟩
  rw [(diffAction_some entries c.1 c.2 a hdc).2.1]
  exact List.mem_map_of_mem Prod.fst hc

/-- A key of a duplicate-free association list determines its value. -/
theorem key_unique {β : Type} : ∀ (l : List (String × β)) (p : String) (h1 h2 : β),
    (l.map Prod.fst).Nodup → (p, h1) ∈ l → (p, h2) ∈ l → h1 = h2 := by
  intro l
  induction l with
  | nil => intro p h1 h2 _ hm; exact absurd hm (List.not_mem_nil _)
  | cons c rest ih =>
      intro p h1 h2 hnd hm1 hm2
      have hnd' : (c.1 ∉ rest.map Prod.fst) ∧ (rest.map Prod.fst).Nodup :=
        List.nodup_cons.mp (by simpa using hnd)
      rcases List.mem_cons.mp hm1 with he1 | hr1 <;>
        rcases List.mem_cons.mp hm2 with he2 | hr2
      · rw [← he2] at he1
        exact congrArg Prod.snd he1
      · exact absurd (congrArg Prod.fst he1 ▸ List.mem_map_of_mem Prod.fst hr2)
          (by simpa using hnd'.1)
      · exact absurd (congrArg Prod.fst he2 ▸ List.mem_map_of_mem Prod.fst hr1)
          (by simpa using hnd'.1)
      · exact ih p h1 h2 hnd'.2 hr1 hr2

/-- Unfolding of the action list over the first canonical file. -/
theorem build_actions_cons (entries : List (String × RepairRepos.FileRecord))
    (c : String × String) (rest : List (String × String)) :
    RepairRepos.build_actions (c :: rest) entries =
      match RepairRepos.diffAction entries c.1 c.2 with
      | none => RepairRepos.build_actions rest entries
      | some a => a :: RepairRepos.build_actions rest entries := by
  rw [RepairRepos.build_actions, List.filterMap_cons]
  rcases RepairRepos.diffAction entries c.1 c.2 with _ | a <;> rfl

/-- Exactly one action exists per drifting canonical file (and none for a
matching one), provided canonical paths are unique. -/
theorem build_actions_countP (entries : List (String × RepairRepos.FileRecord)) :
    ∀ (canonical : List (String × String)) (p h : String),
      (p, h) ∈ canonical → (canonical.map Prod.fst).Nodup →
      (RepairRepos.build_actions canonical entries).countP
          (fun a => a.target_path == p) =
        if (RepairRepos.diffAction entries p h).isSome then 1 else 0 := by
  intro canonical
  induction canonical with
  | nil => intro p h hm; exact absurd hm (List.not_mem_nil _)
  | cons c rest ih =>
      intro p h hm hnd
      have hnd' : (c.1 ∉ rest.map Prod.fst) ∧ (rest.map Prod.fst).Nodup :=
        List.nodup_cons.mp (by simpa using hnd)
      rcases List.mem_cons.mp hm with he | hr
      · subst he
        have hz : (RepairRepos.build_actions rest entries).countP
            (fun a => a.target_path == p) = 0 := by
          refine List.countP_eq_zero.mpr fun a ha => ?_
          have hmem2 := build_actions_target_mem entries rest a ha
          have hp1 : p ∉ rest.map Prod.fst := by simpa using hnd'.1
          simp only [beq_iff_eq]
          intro he2
          exact hp1 (he2 ▸ hmem2)
        rw [build_actions_cons]
        dsimp only
        rcases hdc : RepairRepos.diffAction entries p h with _ | a
        · simp [hz]
        · have hta := (diffAction_some entries p h a hdc).2.1
          simp [List.countP_cons, hz, hta]
      · have hcp : c.1 ≠ p := fun he =>
          hnd'.1 (he ▸ List.mem_map_of_mem Prod.fst hr)
        rw [build_actions_cons]
        rcases hdc : RepairRepos.diffAction entries c.1 c.2 with _ | a
        · exact ih p h hr hnd'.2
        · have hta := (diffAction_some entries c.1 c.2 a hdc).2.1
          simpa [List.countP_cons, hta, hcp] using ih p h hr hnd'.2

/-- Lookup after a dict assignment: the assigned key maps to the new value,
all other keys are untouched. -/
theorem lookup_dictSet :
    ∀ (m : List (String × RepairRepos.FileRecord)) (k : String)
      (v : RepairRepos.FileRecord) (k0 : String),
      List.lookup k0 (RepairRepos.dictSet m k v) =
        if k0 = k then some v else List.lookup k0 m := by
  intro m
  induction m with
  | nil =>
      intro k v k0
      by_cases hk : k0 = k
      · simp [RepairRepos.dictSet, List.lookup, hk]
      · have hb : (k0 == k) = false := beq_eq_false_iff_ne.mpr hk
        simp [RepairRepos.dictSet, List.lookup, hb, hk]
  | cons c rest ih =>
      intro k v k0
      obtain ⟨ck, cv⟩ := c
      by_cases hck : ck = k
      · subst hck
        by_cases hk : k0 = ck
        · simp [RepairRepos.dictSet, List.lookup, hk]
        · have hb : (k0 == ck) = false := beq_eq_false_iff_ne.mpr hk
          simp [RepairRepos.dictSet, List.lookup, hb, hk]
      · by_cases hk : k0 = ck
        · subst hk
          simp [RepairRepos.dictSet, List.lookup, hck]
        · have hb : (k0 == ck) = false := beq_eq_false_iff_ne.mpr hk
          simp [RepairRepos.dictSet, List.lookup, hck, hb, ih]

/-- Applying a plan leaves keys outside its targets untouched. -/
theorem lookup_apply_plan_not_mem :
    ∀ (actions : List RepairRepos.RepairAction)
      (entries : List (String × RepairRepos.FileRecord)) (p : String),
      p ∉ actions.map (fun a => a.target_path) →
      List.lookup p (RepairRepos.apply_plan actions entries) =
        List.lookup p entries := by
  intro actions
  induction actions with
  | nil => intro entries p _; rfl
  | cons a rest ih =>
      intro entries p hp
      rw [List.map_cons, List.mem_cons] at hp
      push_neg at hp
      have hstep : RepairRepos.apply_plan (a :: rest) entries =
          RepairRepos.apply_plan rest
            (RepairRepos.dictSet entries a.target_path
              ⟨"CosDen", a.target_path, a.canonical_sha256, true⟩) := rfl
      rw [hstep, ih _ p hp.2, lookup_dictSet, if_neg hp.1]

/-- Applying a plan gives each targeted key its action's canonical hash
(assuming targets are unique, which holds for plans built from a
duplicate-free canonical tree). -/
theorem lookup_apply_plan_mem :
    ∀ (actions : List RepairRepos.RepairAction)
      (entries : List (String × RepairRepos.FileRecord))
      (a : RepairRepos.RepairAction), a ∈ actions →
      (actions.map (fun a => a.target_path)).Nodup →
      List.lookup a.target_path (RepairRepos.apply_plan actions entries) =
        some ⟨"CosDen", a.target_path, a.canonical_sha256, true⟩ := by
  intro actions
  induction actions with
  | nil => intro entries a ha; exact absurd ha (List.not_mem_nil a)
  | cons b rest ih =>
      intro entries a ha hnd
      have hnd' : (b.target_path ∉ rest.map (fun a => a.target_path))
          ∧ (rest.map (fun a => a.target_path)).Nodup :=
        List.nodup_cons.mp (by simpa using hnd)
      have hstep : RepairRepos.apply_plan (b :: rest) entries =
          RepairRepos.apply_plan rest
            (RepairRepos.dictSet entries b.target_path
              ⟨"CosDen", b.target_path, b.canonical_sha256, true⟩) := rfl
      rcases List.mem_cons.mp ha with rfl | hr
      · rw [hstep, lookup_apply_plan_not_mem rest _ a.target_path hnd'.1,
          lookup_dictSet, if_pos rfl]
      · rw [hstep]
        exact ih _ a hr hnd'.2

/-- C8: applying a generated repair plan to the index and recomputing
yields an empty action list (and no plan document); a plan computed from
two trees with identical paths and hashes is already empty. -/
theorem C8_repair_idempotent (canonical : List (String × String))
    (repo_entries : List (String × RepairRepos.FileRecord)) (now : String)
    (hnd : (canonical.map Prod.fst).Nodup) :
    RepairRepos.build_actions canonical
        (RepairRepos.apply_plan
          (RepairRepos.build_actions canonical repo_entries) repo_entries) = []
    ∧ RepairRepos.build_cosden_repair_plan (some canonical)
        (RepairRepos.apply_plan
          (RepairRepos.build_actions canonical repo_entries) repo_entries) now
        = none
    ∧ ((∀ p h, (p, h) ∈ canonical →
          ∃ r, repo_entries.lookup p = some r ∧ r.sha256 = h) →
        RepairRepos.build_actions canonical repo_entries = []) := by
  have hndt : ((RepairRepos.build_actions canonical repo_entries).map
      (fun a => a.target_path)).Nodup := by
    rw [build_actions_targets]
    exact hnd.sublist ((List.filter_sublist canonical).map Prod.fst)
  have hmain : ∀ c ∈ canonical,
      RepairRepos.diffAction
        (RepairRepos.apply_plan
          (RepairRepos.build_actions canonical repo_entries) repo_entries)
        c.1 c.2 = none := by
    intro c hc
    obtain ⟨p, h⟩ := c
    dsimp only
    by_cases hpt : p ∈ (RepairRepos.build_actions canonical repo_entries).map
        (fun a => a.target_path)
    · obtain ⟨a, ha, hap⟩ := List.mem_map.mp hpt
      obtain ⟨c', hc', hdc'⟩ := List.mem_filterMap.mp ha
      obtain ⟨hty, hta, hsh, _⟩ := diffAction_some repo_entries c'.1 c'.2 a hdc'
      have hfst : c'.1 = p := hta ▸ hap
      have hp' : (p, c'.2) ∈ canonical := by
        rw [← hfst]
        simpa using hc'
      have hh : c'.2 = h := key_unique canonical p c'.2 h hnd hp' hc
      have hlk := lookup_apply_plan_mem
        (RepairRepos.build_actions canonical repo_entries) repo_entries a ha hndt
      rw [hap] at hlk
      have hsha : a.canonical_sha256 = h := by rw [hsh, hh]
      unfold RepairRepos.diffAction
      rw [hlk]
      simp [hsha]
    · have hdn : RepairRepos.diffAction repo_entries p h = none := by
        rcases hd : RepairRepos.diffAction repo_entries p h with _ | a
        · rfl
        · exact absurd
            (List.mem_map.mpr ⟨a, List.mem_filterMap.mpr ⟨(p, h), hc, hd⟩,
              (diffAction_some repo_entries p h a hd).2.1⟩) hpt
      obtain ⟨r, hlr, hrs⟩ := diffAction_none repo_entries p h hdn
      have hlk := lookup_apply_plan_not_mem
        (RepairRepos.build_actions canonical repo_entries) repo_entries p hpt
      unfold RepairRepos.diffAction
      rw [hlk, hlr]
      simp [hrs]
  have h0 : RepairRepos.build_actions canonical
      (RepairRepos.apply_plan
        (RepairRepos.build_actions canonical repo_entries) repo_entries) = [] :=
    List.filterMap_eq_nil_iff.mpr hmain
  refine ⟨h0, ?_, ?_⟩
  · simp [RepairRepos.build_cosden_repair_plan, h0]
  · intro hall
    have hmain2 : ∀ c ∈ canonical,
        RepairRepos.diffAction repo_entries c.1 c.2 = none := by
      intro c hc
      obtain ⟨p, h⟩ := c
      dsimp only
      obtain ⟨r, hlr, hrs⟩ := hall p h hc
      unfold RepairRepos.diffAction
      rw [hlr]
      simp [hrs]
    exact List.filterMap_eq_nil_iff.mpr hmain2

/-- Witness for C8 on a one-file canonical set whose hash differs from the
index. -/
theorem C8_repair_idempotent_witness :
    RepairRepos.build_actions [("x.py", "H1")]
        (RepairRepos.apply_plan
          (RepairRepos.build_actions [("x.py", "H1")]
            [("x.py", ⟨"CosDen", "x.py", "H2", true⟩)])
          [("x.py", ⟨"CosDen", "x.py", "H2", true⟩)]) = []
    ∧ RepairRepos.build_cosden_repair_plan (some [("x.py", "H1")])
        (RepairRepos.apply_plan
          (RepairRepos.build_actions [("x.py", "H1")]
            [("x.py", ⟨"CosDen", "x.py", "H2", true⟩)])
          [("x.py", ⟨"CosDen", "x.py", "H2", true⟩)]) "T" = none
    ∧ ((∀ p h, (p, h) ∈ [("x.py", "H1")] →
          ∃ r, List.lookup p
              [("x.py", (⟨"CosDen", "x.py", "H2", true⟩ : RepairRepos.FileRecord))]
            = some r ∧ r.sha256 = h) →
        RepairRepos.build_actions [("x.py", "H1")]
          [("x.py", ⟨"CosDen", "x.py", "H2", true⟩)] = []) :=
  C8_repair_idempotent [("x.py", "H1")] [("x.py", ⟨"CosDen", "x.py", "H2", true⟩)]
    "T" (by decide)

/-- C7 counterexample: with an empty repo index, a canonical traversal that
yields `b.py` before `a.py` produces the action list with targets in that
traversal order — the plan is not sorted by target path. -/
theorem C7_counterexample :
    (RepairRepos.build_actions [("b.py", "H1"), ("a.py", "H2")] []).map
        (fun a => a.target_path) = ["b.py", "a.py"]
    ∧ strLe "b.py" "a.py" = false := ⟨rfl, by decide⟩

/-- C7 amended: the plan contains exactly one action per canonical file
that is absent from the index (`missing_in_repo`) or carries a different
hash (`hash_mismatch`), no action for index-only files (it never deletes
repo-local files), and its actions follow the canonical traversal order
(they are not sorted by target path). -/
theorem C7_plan_actions_amended (canonical : List (String × String))
    (repo_entries : List (String × RepairRepos.FileRecord))
    (hnd : (canonical.map Prod.fst).Nodup) :
    (RepairRepos.build_actions canonical repo_entries).map (fun a => a.target_path)
      = (canonical.filter fun c =>
          (RepairRepos.diffAction repo_entries c.1 c.2).isSome).map Prod.fst
    ∧ (∀ a ∈ RepairRepos.build_actions canonical repo_entries,
        a.type = "write_file" ∧ a.target_path ∈ canonical.map Prod.fst
        ∧ ((a.reason = "missing_in_repo"
              ∧ repo_entries.lookup a.target_path = none)
          ∨ (a.reason = "hash_mismatch"
              ∧ ∃ r, repo_entries.lookup a.target_path = some r
                  ∧ r.sha256 ≠ a.canonical_sha256)))
    ∧ (∀ p h, (p, h) ∈ canonical →
        (RepairRepos.build_actions canonical repo_entries).countP
            (fun a => a.target_path == p) =
          if (RepairRepos.diffAction repo_entries p h).isSome then 1 else 0) := by
  refine ⟨build_actions_targets repo_entries canonical, ?_, ?_⟩
  · intro a ha
    obtain ⟨c, hc, hdc⟩ := List.mem_filterMap.mp ha
    obtain ⟨hty, hta, hsh, hre⟩ := diffAction_some repo_entries c.1 c.2 a hdc
    refine ⟨hty, build_actions_target_mem repo_entries canonical a ha, ?_⟩
    rw [hta, hsh]
    exact hre
  · exact fun p h hm => build_actions_countP repo_entries canonical p h hm hnd

/-- Witness for C7's amended statement: one canonical file matching the
index and one with a differing hash. -/
theorem C7_plan_actions_amended_witness :
    (RepairRepos.build_actions [("a.py", "H1"), ("b.py", "H2")]
        [("a.py", ⟨"CosDen", "a.py", "H1", true⟩)]).map (fun a => a.target_path)
      = ([("a.py", "H1"), ("b.py", "H2")].filter fun c =>
          (RepairRepos.diffAction
            [("a.py", ⟨"CosDen", "a.py", "H1", true⟩)] c.1 c.2).isSome).map Prod.fst
    ∧ (∀ a ∈ RepairRepos.build_actions [("a.py", "H1"), ("b.py", "H2")]
          [("a.py", ⟨"CosDen", "a.py", "H1", true⟩)],
        a.type = "write_file"
        ∧ a.target_path ∈ [("a.py", "H1"), ("b.py", "H2")].map Prod.fst
        ∧ ((a.reason = "missing_in_repo"
              ∧ List.lookup a.target_path
                  [("a.py", (⟨"CosDen", "a.py", "H1", true⟩ :
                    RepairRepos.FileRecord))] = none)
          ∨ (a.reason = "hash_mismatch"
              ∧ ∃ r, List.lookup a.target_path
                    [("a.py", (⟨"CosDen", "a.py", "H1", true⟩ :
                      RepairRepos.FileRecord))] = some r
                  ∧ r.sha256 ≠ a.canonical_sha256)))
    ∧ (∀ p h, (p, h) ∈ [("a.py", "H1"), ("b.py", "H2")] →
        (RepairRepos.build_actions [("a.py", "H1"), ("b.py", "H2")]
            [("a.py", ⟨"CosDen", "a.py", "H1", true⟩)]).countP
            (fun a => a.target_path == p) =
          if (RepairRepos.diffAction
              [("a.py", ⟨"CosDen", "a.py", "H1", true⟩)] p h).isSome
          then 1 else 0) :=
  C7_plan_actions_amended [("a.py", "H1"), ("b.py", "H2")]
    [("a.py", ⟨"CosDen", "a.py", "H1", true⟩)] (by decide)

/-- C10: every action the planner emits has type `write_file` (the
`move_file` variant is never produced), and when the action list is empty
— or the canonical root is absent — no repair-plan document is written at
all; conversely any written plan has a non-empty action list. -/
theorem C10_write_file_only (canonical : List (String × String))
    (repo_entries : List (String × RepairRepos.FileRecord)) (now : String) :
    ((RepairRepos.build_actions canonical repo_entries).all
        fun a => a.type == "write_file") = true
    ∧ (RepairRepos.build_actions canonical repo_entries = [] →
        RepairRepos.write_repair_plan
          (RepairRepos.build_cosden_repair_plan (some canonical) repo_entries now)
          = none)
    ∧ RepairRepos.write_repair_plan
        (RepairRepos.build_cosden_repair_plan none repo_entries now) = none
    ∧ (∀ pl, RepairRepos.build_cosden_repair_plan (some canonical) repo_entries now
          = some pl → pl.actions ≠ []) := by
  refine ⟨?_, ?_, rfl, ?_⟩
  · refine List.all_eq_true.mpr fun a ha => ?_
    obtain ⟨c, hc, hdc⟩ := List.mem_filterMap.mp ha
    simp [(diffAction_some repo_entries c.1 c.2 a hdc).1]
  · intro h0
    simp [RepairRepos.build_cosden_repair_plan, h0, RepairRepos.write_repair_plan]
  · intro pl hpl
    rcases hE : (RepairRepos.build_actions canonical repo_entries).isEmpty
    · rw [show RepairRepos.build_cosden_repair_plan (some canonical) repo_entries now
          = some ⟨"CosDen", now, "canonical/cosden",
              RepairRepos.build_actions canonical repo_entries⟩ from by
        simp [RepairRepos.build_cosden_repair_plan, hE]] at hpl
      cases hpl
      intro hnil
      dsimp only at hnil
      rw [hnil] at hE
      simp at hE
    · simp [RepairRepos.build_cosden_repair_plan, hE] at hpl

/-- Witness for C10 at a concrete one-file drift. -/
theorem C10_write_file_only_witness :
    ((RepairRepos.build_actions [("a.py", "H1")] []).all
        fun a => a.type == "write_file") = true
    ∧ (RepairRepos.build_actions [("a.py", "H1")] [] = [] →
        RepairRepos.write_repair_plan
          (RepairRepos.build_cosden_repair_plan (some [("a.py", "H1")]) [] "T")
          = none)
    ∧ RepairRepos.write_repair_plan
        (RepairRepos.build_cosden_repair_plan none [] "T") = none
    ∧ (∀ pl, RepairRepos.build_cosden_repair_plan (some [("a.py", "H1")]) [] "T"
          = some pl → pl.actions ≠ []) :=
  C10_write_file_only [("a.py", "H1")] [] "T"

/-- The `visited` log only ever grows by nodes not yet in it, so it stays
duplicate-free through `dfs` at every fuel. -/
theorem dfs_visited_nodup (g : List (String × List String)) :
    ∀ fuel : Nat, ∀ (node : String) (path : List String) (st : EvalDeps.DfsState),
      st.visited.Nodup → (EvalDeps.dfs g fuel node path st).visited.Nodup := by
  intro fuel
  induction fuel with
  | zero => intro node path st h; exact h
  | succ fuel ih =>
      intro node path st h
      by_cases h1 : node ∈ st.stack
      · simpa [EvalDeps.dfs, h1] using h
      · by_cases h2 : node ∈ st.visited
        · simpa [EvalDeps.dfs, h1, h2] using h
        · have hfold : ∀ (l path' : List String) (st' : EvalDeps.DfsState),
              st'.visited.Nodup →
              (l.foldl (fun s dep => EvalDeps.dfs g fuel dep (path' ++ [dep]) s)
                st').visited.Nodup := by
            intro l
            induction l with
            | nil => intro path' st' h'; exact h'
            | cons d rest ihr =>
                intro path' st' h'
                exact ihr path' _ (ih d (path' ++ [d]) st' h')
          have h3 : (st.visited ++ [node]).Nodup := by
            simp [List.nodup_append, h, h2]
          simpa [EvalDeps.dfs, h1, h2] using
            hfold ((g.lookup node).getD []) path
              ⟨st.visited ++ [node], st.stack ++ [node], st.cycles⟩ h3

/-- The start-node loop of `_detect_cycles` preserves the duplicate-free
visited log. -/
theorem detect_cycles_visited_nodup (nodes : List EvalDeps.RepoNode) :
    (EvalDeps.detect_cycles nodes).visited.Nodup := by
  unfold EvalDeps.detect_cycles
  have hgen : ∀ (g : List (String × List String)) (fuel : Nat)
      (l : List (String × List String)) (st : EvalDeps.DfsState),
      st.visited.Nodup →
      (l.foldl (fun st p =>
        if p.1 ∈ st.visited then st
        else EvalDeps.dfs g fuel p.1 [p.1] st) st).visited.Nodup := by
    intro g fuel l
    induction l with
    | nil => intro st h; exact h
    | cons p rest ihr =>
        intro st h
        by_cases hv : p.1 ∈ st.visited
        · simpa [hv] using ihr st h
        · simpa [hv] using ihr _ (dfs_visited_nodup g fuel p.1 [p.1] st h)
  exact hgen _ _ _ _ (by simp)

/-- C6 counterexample: on the triangle A→B→C→A the traversal returns
exactly one cycle, but it is reported as `[A, B, C, A, A]` — the path
already ends with the re-encountered node and the code appends it once
more, so the start node occurs three times, not "again only once, as the
closing element". -/
theorem C6_counterexample :
    EvalDeps.detect_cycles_list
        [⟨"A", "", ["B"], []⟩, ⟨"B", "", ["C"], []⟩, ⟨"C", "", ["A"], []⟩] =
      [["A", "B", "C", "A", "A"]]
    ∧ List.count "A" ["A", "B", "C", "A", "A"] = 3 := by
  exact ⟨by decide, by decide⟩

/-- C6 amended: on the triangle A→B→C→A cycle detection terminates and
returns exactly one cycle whose node set is exactly the three nodes A, B
and C, reported
with the closing node duplicated (`[A, B, C, A, A]`); and in general every
node is entered at most once per traversal (the visited log of a full
`_detect_cycles` run is duplicate-free), which is what keeps the traversal
from looping on a cycle. -/
theorem C6_cycle_detection_amended :
    EvalDeps.detect_cycles_list
        [⟨"A", "", ["B"], []⟩, ⟨"B", "", ["C"], []⟩, ⟨"C", "", ["A"], []⟩] =
      [["A", "B", "C", "A", "A"]]
    ∧ (EvalDeps.detect_cycles_list
        [⟨"A", "", ["B"], []⟩, ⟨"B", "", ["C"], []⟩, ⟨"C", "", ["A"], []⟩]).map
        pyDedup = [["A", "B", "C"]]
    ∧ ∀ nodes : List EvalDeps.RepoNode,
        (EvalDeps.detect_cycles nodes).visited.Nodup :=
  ⟨by decide, by decide, detect_cycles_visited_nodup⟩
